import Mathlib

/-!
# emix-logrus: the fan-out logging core of `log.go`

A shallow embedding of `log.go` (package `emlogrus`) and the properties of its
dispatcher, sinks and sink construction.

Conventions of the embedding.

* A Go `panic` is the `Except.error` branch of `Except String _`; a call that
  returns normally is `Except.ok`.
* Package-level variables (`GlobalLevel`, `_log`) are passed explicitly.
* `*OptionLogger` pointers held by a dispatcher are positions in its `logs`
  slice; a `*logrus.Entry` refers to its logger by that position.
* The operating system, the YAML decoder and the rotation library are the
  fields of `Env`.
* Labels and configured texts are `String`; a file path, on which the code
  takes lengths, indices and slices, is the list of its bytes (`GoString`),
  obtained from a text by its UTF-8 encoding.
* `int` and `time.Duration` are `Int` wrapped to 64 bits, `uint` is `Nat`.
-/

set_option autoImplicit false

/-- Equality of outcomes is decidable, so that closed instances evaluate. -/
instance instDecidableEqExcept {ε α : Type} [DecidableEq ε] [DecidableEq α] :
    DecidableEq (Except ε α)
  | .ok a, .ok b => if h : a = b then isTrue (by rw [h]) else isFalse (fun h' => h (by cases h'; rfl))
  | .error a, .error b =>
    if h : a = b then isTrue (by rw [h]) else isFalse (fun h' => h (by cases h'; rfl))
  | .ok _, .error _ => isFalse (fun h => by cases h)
  | .error _, .ok _ => isFalse (fun h => by cases h)

namespace Emlogrus

/-! ## logrus levels and formatters -/

/-- Go `logrus.Level` (a `uint32`) of the external logrus library. -/
abbrev Level := Nat

/-! The level constants of logrus, declared there as `PanicLevel Level = iota`
followed by `FatalLevel` .. `TraceLevel`: lower numbers are more severe, so the
order `Debug < Info < Warn < Error` of the specification is the reverse of the
numeric one. -/

def PanicLevel : Level := 0
def FatalLevel : Level := 1
def ErrorLevel : Level := 2
def WarnLevel : Level := 3
def InfoLevel : Level := 4
def DebugLevel : Level := 5
def TraceLevel : Level := 6

/-- Go `logrus.Level.String` of the external logrus library: the level's text
form, `"unknown"` otherwise. -/
def Level.String (l : Level) : String :=
  if l = TraceLevel then "trace"
  else if l = DebugLevel then "debug"
  else if l = InfoLevel then "info"
  else if l = WarnLevel then "warning"
  else if l = ErrorLevel then "error"
  else if l = FatalLevel then "fatal"
  else if l = PanicLevel then "panic"
  else "unknown"

/-- Go `logrus.Formatter` values the package creates: `&logrus.TextFormatter{}`
and `&logrus.JSONFormatter{}`. These are the only values `LogFormat.Logrus`
returns, hence the only formatters of a dispatcher built by `NewLogEntry` or
`init`. The Go field `Option.Format` is of interface type and the exported
`NewLogEntryFromOption` also accepts nil or a formatter of the caller; such
options are outside this embedding. -/
inductive Formatter where
  | TextFormatter
  | JSONFormatter
  deriving DecidableEq, Repr

/-! ## Configuration vocabulary -/

abbrev LogOutType := String
abbrev LogLevel := String
abbrev LogFormat := String

def ConsoleOut : LogOutType := "console"
def FileOut : String := "file"
def DebugLog : LogLevel := "debug"
def InfoLog : String := "info"
def WarnLog : String := "warn"
def ErrorLog : String := "error"
def TextLog : LogFormat := "text"
def JsonLog : String := "json"

/-- Go `LogLevel.Logrus`: the switch over the four labels, panicking on any
other value. -/
def LogLevel.Logrus (r : LogLevel) : Except String Level :=
  if r = DebugLog then .ok DebugLevel
  else if r = InfoLog then .ok InfoLevel
  else if r = WarnLog then .ok WarnLevel
  else if r = ErrorLog then .ok ErrorLevel
  else .error "unknown level"

/-- Go `LogFormat.Logrus`: the switch over the two labels, panicking on any
other value. -/
def LogFormat.Logrus (r : LogFormat) : Except String Formatter :=
  if r = TextLog then .ok Formatter.TextFormatter
  else if r = JsonLog then .ok Formatter.JSONFormatter
  else .error "unknown format"

/-- Go `time.Hour`, in nanoseconds. -/
def Hour : Int := 3600000000000

/-- Two's-complement wrap of an integer to 64 bits (Go `int64` arithmetic). -/
def wrapInt64 (x : Int) : Int := (x + 2 ^ 63) % 2 ^ 64 - 2 ^ 63

/-- Go `LogConfig`. -/
structure LogConfig where
  Level : LogLevel
  Format : LogFormat
  OutType : LogOutType
  OutDir : String
  MaxAge : Int
  MaxCount : Nat
  SingleLevel : Bool
  Disabled : Bool
  deriving DecidableEq, Repr

/-- Go `Option` (the per-sink options; renamed, `Option` being taken). -/
structure LogOption where
  Level : Level
  Format : Formatter
  OutType : LogOutType
  OutDir : String
  MaxAge : Int
  MaxCount : Nat
  SingleLevel : Bool
  Disabled : Bool
  deriving DecidableEq, Repr

/-- Go `LogConfig.Option`: level and format are converted first (either may
panic), the age is scaled from hours to a `time.Duration`. -/
def LogConfig.Option (r : LogConfig) : Except String LogOption :=
  match LogLevel.Logrus r.Level with
  | .error e => .error e
  | .ok lv =>
    match LogFormat.Logrus r.Format with
    | .error e => .error e
    | .ok fm =>
      .ok { Level := lv
            Format := fm
            OutType := r.OutType
            OutDir := r.OutDir
            MaxAge := wrapInt64 (wrapInt64 r.MaxAge * Hour)
            MaxCount := r.MaxCount
            SingleLevel := r.SingleLevel
            Disabled := r.Disabled }

/-- Go `EmixConfig`. -/
structure EmixConfig where
  Log : List LogConfig
  deriving DecidableEq, Repr

/-- Go `RootConfig`. -/
structure RootConfig where
  Emix : EmixConfig
  deriving DecidableEq, Repr

/-- Go `Operation`. -/
structure Operation where
  Lcs : List LogConfig
  deriving DecidableEq, Repr

/-! ## Byte strings -/

/-- A Go `string` as the code indexes and slices it: a sequence of bytes. -/
abbrev GoString := List UInt8

/-- The bytes of a text, in UTF-8 as Go holds it. -/
def utf8 (s : String) : GoString := s.toUTF8.data.toList

/-! ## The environment -/

/-- The collaborators outside the package: `utils.FileIsExist`, `os.ReadFile`,
`yaml.Unmarshal` into a `RootConfig`, `os.MkdirAll` (its error, if any) and
`frl.New` (its error, if any, for a pattern, rotation time, max age and
rotation count). -/
structure Env where
  FileIsExist : GoString → Bool
  ReadFile : GoString → Except String String
  Unmarshal : String → Except String RootConfig
  MkdirAll : GoString → Option String
  frlNewErr : GoString → Int → Int → Nat → Option String

/-- Go `utils.PanicError`: panic when the error is not nil. -/
def PanicError (e : Option String) : Except String Unit :=
  match e with
  | some msg => .error msg
  | none => .ok ()

/-- Go `parseYaml`. -/
def parseYaml (env : Env) (f : String) : Except String (List LogConfig) :=
  match env.ReadFile (utf8 f) with
  | .error e => .error e
  | .ok bytes =>
    match env.Unmarshal bytes with
    | .error e => .error e
    | .ok yc => .ok yc.Emix.Log

/-- Go `AfterInit`: explicit configurations win; otherwise a named, existing
YAML file is parsed; otherwise the operation carries no configuration. -/
def AfterInit (env : Env) (yamlFile : String) (cs : List LogConfig) :
    Except String Operation :=
  if cs.length != 0 then .ok { Lcs := cs }
  else if yamlFile != "" && env.FileIsExist (utf8 yamlFile) then
    match parseYaml env yamlFile with
    | .error e => .error e
    | .ok lcs => .ok { Lcs := lcs }
  else .ok { Lcs := [] }

/-! ## Writers -/

/-- The `io.Writer` a sink writes to: `os.Stdout`, or the rotating writer
`frl.New` returned, remembered by the arguments it was opened with. -/
inductive Writer where
  | Stdout
  | RotateLogs (pattern : GoString) (rotationTime : Int) (maxAge : Int) (rotationCount : Nat)
  deriving DecidableEq, Repr

/-- The scan behind `strings.LastIndex` for a one-byte separator: the index of
the last occurrence seen from position `i` on, `acc` when there is none. -/
def lastIndexFrom (c : UInt8) : List UInt8 → Nat → Int → Int
  | [], _, acc => acc
  | x :: xs, i, acc => lastIndexFrom c xs (i + 1) (if x = c then (i : Int) else acc)

/-- Go `strings.LastIndex(s, sep)` for a one-byte separator: the byte index of
its last occurrence, or `-1`. -/
def LastIndex (s : GoString) (c : UInt8) : Int := lastIndexFrom c s 0 (-1)

/-- The byte of the path separator `/`. -/
def slash : UInt8 := 47

/-- Go slice expression `s[:n]` on a string: the first `n` bytes, with the
run-time panic of an out-of-range bound. -/
def sliceTo (s : GoString) (n : Int) : Except String GoString :=
  if n < 0 then
    .error ("runtime error: slice bounds out of range [:" ++ toString n ++ "]")
  else if (s.length : Int) < n then
    .error ("runtime error: slice bounds out of range [:" ++ toString n ++ "] with length " ++
      toString s.length)
  else .ok (s.take n.toNat)

/-- The lines `le := len(file)` and
`if ind := strings.LastIndex(file, "/"); ind == le-1 { file = file[:le-2] }` of
`outTypeToWriter`, on the bytes of `file`. -/
def trimDir (file : GoString) : Except String GoString :=
  let le : Int := file.length
  if LastIndex file slash = le - 1 then sliceTo file (le - 2) else .ok file

/-- The directory resolution at the head of the `FileOut` case of
`outTypeToWriter`: the default `log/<level>` for an empty `OutDir`, then the
trailing-separator test and cut of `trimDir`. -/
def resolveDir (c : LogOption) : Except String GoString :=
  trimDir (utf8 (if c.OutDir = "" then "log/" ++ Level.String c.Level else c.OutDir))

/-- Go `frl.New` with `WithRotationTime`, `WithMaxAge`, `WithRotationCount`. -/
def frlNew (env : Env) (pattern : GoString) (rotationTime maxAge : Int) (rotationCount : Nat) :
    Except String Writer :=
  match env.frlNewErr pattern rotationTime maxAge rotationCount with
  | some e => .error e
  | none => .ok (Writer.RotateLogs pattern rotationTime maxAge rotationCount)

/-- Go `outTypeToWriter`: `none` is the nil writer. -/
def outTypeToWriter (env : Env) (c : LogOption) : Except String (Option Writer) :=
  if c.OutType = ConsoleOut then .ok (some Writer.Stdout)
  else if c.OutType = FileOut then
    match resolveDir c with
    | .error e => .error e
    | .ok file =>
      match (if env.FileIsExist file then PanicError (env.MkdirAll file) else .ok ()) with
      | .error e => .error e
      | .ok _ =>
        let c := if c.MaxAge ≠ 0 then { c with MaxCount := 0 } else c
        match frlNew env (file ++ utf8 "/" ++ utf8 "%Y-%m-%d.log") (24 * Hour) c.MaxAge
            c.MaxCount with
        | .error e => .error e
        | .ok logf => .ok (some logf)
  else .ok none

/-! ## The wrapped logging engine -/

/-- Go `Fields` (`map[string]interface{}`), as an association list of printed
values. -/
abbrev Fields := List (String × String)

/-- Modelled from the spec: the message text of a record of the external
engine, with the formatting left symbolic:
`fmt.Sprint(args...)`, `fmt.Sprintf(format, args...)` or the line form of
`args`. -/
inductive Message where
  | Sprint (args : List String)
  | Sprintf (format : String) (args : List String)
  | Sprintln (args : List String)
  deriving DecidableEq, Repr

/-- Modelled from the spec: one log record of the external engine, with its
level, its attached fields and its message. -/
structure Record where
  Level : Level
  Data : Fields
  Message : Message
  deriving DecidableEq, Repr

/-- Modelled from the spec: the `logrus.Logger` engine of the external logrus
library, which is not part of the sources. It is "one underlying
leveled-logging engine instance configured with the sink's format, output
stream, and minimum severity", applying "standard threshold semantics,
enforced by the wrapped engine itself". `handed` lists every record handed to
the engine, `written` the records it wrote to `Out`. -/
structure Logger where
  Out : Writer
  Formatter : Formatter
  Level : Level
  handed : List Record
  written : List Record
  deriving DecidableEq, Repr

/-- Modelled from the spec: `logrus.New()` followed by `SetFormatter`,
`SetOutput` and `SetLevel`; nothing has been logged yet. -/
def Logger.New (format : Emlogrus.Formatter) (out : Writer) (level : Emlogrus.Level) : Logger :=
  { Out := out, Formatter := format, Level := level, handed := [], written := [] }

/-- Modelled from the spec: the engine's threshold test, a record passes when its
severity is at least the configured minimum, that is when its logrus number is
at most the logger's. -/
def Logger.IsLevelEnabled (lg : Logger) (level : Emlogrus.Level) : Bool :=
  decide (level ≤ lg.Level)

/-- Modelled from the spec: the engine receives a record and writes it when the
threshold test passes. -/
def Logger.log (lg : Logger) (r : Record) : Logger :=
  { lg with
    handed := lg.handed ++ [r]
    written := if lg.IsLevelEnabled r.Level then lg.written ++ [r] else lg.written }

/-- Modelled from the spec: `logrus.Logger.Log`. -/
def Logger.Log (lg : Logger) (level : Emlogrus.Level) (args : List String) : Logger :=
  lg.log { Level := level, Data := [], Message := Message.Sprint args }

/-- Modelled from the spec: `logrus.Logger.Logf`. -/
def Logger.Logf (lg : Logger) (level : Emlogrus.Level) (format : String)
    (args : List String) : Logger :=
  lg.log { Level := level, Data := [], Message := Message.Sprintf format args }

/-- Modelled from the spec: `logrus.Logger.Logln`. -/
def Logger.Logln (lg : Logger) (level : Emlogrus.Level) (args : List String) : Logger :=
  lg.log { Level := level, Data := [], Message := Message.Sprintln args }

/-! ## Sinks -/

/-- Go `OptionLogger`: the embedded `*logrus.Logger` and the options. -/
structure OptionLogger where
  Logger : Logger
  Op : LogOption
  deriving DecidableEq, Repr

/-- Go `OptionLogger.Log`. -/
def OptionLogger.Log (r : OptionLogger) (level : Level) (args : List String) : OptionLogger :=
  if r.Op.SingleLevel then
    if r.Op.Level = level then { r with Logger := r.Logger.Log level args } else r
  else { r with Logger := r.Logger.Log level args }

/-- Go `OptionLogger.Logf`. -/
def OptionLogger.Logf (r : OptionLogger) (level : Level) (format : String)
    (args : List String) : OptionLogger :=
  if r.Op.SingleLevel then
    if r.Op.Level = level then { r with Logger := r.Logger.Logf level format args } else r
  else { r with Logger := r.Logger.Logf level format args }

/-- Go `OptionLogger.Logln`. -/
def OptionLogger.Logln (r : OptionLogger) (level : Level) (args : List String) : OptionLogger :=
  if r.Op.SingleLevel then
    if r.Op.Level = level then { r with Logger := r.Logger.Logln level args } else r
  else { r with Logger := r.Logger.Logln level args }

/-- Go `newOptionLogger`: `none` is the nil sink. -/
def newOptionLogger (env : Env) (op : LogOption) : Except String (Option OptionLogger) :=
  if op.Disabled then .ok none
  else
    match outTypeToWriter env op with
    | .error e => .error e
    | .ok none => .ok none
    | .ok (some writer) =>
      .ok (some { Logger := Logger.New op.Format writer op.Level, Op := op })

/-! ## The dispatcher -/

/-- Go `LogEntry`. -/
structure LogEntry where
  logs : List OptionLogger
  deriving DecidableEq, Repr

/-- The loop of `NewLogEntry`: convert, build, keep the non-nil sinks. -/
def NewLogEntry.loop (env : Env) : List LogConfig → List OptionLogger →
    Except String (List OptionLogger)
  | [], logs => .ok logs
  | o :: rest, logs =>
    match LogConfig.Option o with
    | .error e => .error e
    | .ok op =>
      match newOptionLogger env op with
      | .error e => .error e
      | .ok none => NewLogEntry.loop env rest logs
      | .ok (some logger) => NewLogEntry.loop env rest (logs ++ [logger])

/-- Go `NewLogEntry`. -/
def NewLogEntry (env : Env) (lcs : List LogConfig) : Except String LogEntry :=
  match NewLogEntry.loop env lcs [] with
  | .error e => .error e
  | .ok logs => .ok { logs := logs }

/-- The loop of `NewLogEntryFromOption`. -/
def NewLogEntryFromOption.loop (env : Env) : List LogOption → List OptionLogger →
    Except String (List OptionLogger)
  | [], logs => .ok logs
  | o :: rest, logs =>
    match newOptionLogger env o with
    | .error e => .error e
    | .ok none => NewLogEntryFromOption.loop env rest logs
    | .ok (some logger) => NewLogEntryFromOption.loop env rest (logs ++ [logger])

/-- Go `NewLogEntryFromOption`. -/
def NewLogEntryFromOption (env : Env) (ops : List LogOption) : Except String LogEntry :=
  match NewLogEntryFromOption.loop env ops [] with
  | .error e => .error e
  | .ok logs => .ok { logs := logs }

/-- Go `LogEntry.batchLogln`. -/
def LogEntry.batchLogln (l : LogEntry) (level : Level) (args : List String) : LogEntry :=
  { logs := l.logs.map (fun v => v.Logln level args) }

/-- Go `LogEntry.batchLogf`. -/
def LogEntry.batchLogf (l : LogEntry) (level : Level) (format : String)
    (args : List String) : LogEntry :=
  { logs := l.logs.map (fun v => v.Logf level format args) }

/-- Modelled from the spec: `*logrus.Entry` as `WithFields` returns it, with the
logger it belongs to (its position in the dispatcher) and the fields it
carries. -/
structure Entry where
  Logger : Nat
  Data : Fields
  deriving DecidableEq, Repr

/-- The loop of `LogEntry.withs`, at sink position `i`. -/
def LogEntry.withsFrom (level : Level) (fields : Fields) : Nat → List OptionLogger → List Entry
  | _, [] => []
  | i, v :: vs =>
    if v.Op.SingleLevel && v.Op.Level != level then LogEntry.withsFrom level fields (i + 1) vs
    else { Logger := i, Data := fields } :: LogEntry.withsFrom level fields (i + 1) vs

/-- Go `LogEntry.withs`. -/
def LogEntry.withs (l : LogEntry) (level : Level) (fields : Fields) : List Entry :=
  LogEntry.withsFrom level fields 0 l.logs

/-- The sink at position `i` replaced by `f` of it. -/
def updateAt (f : OptionLogger → OptionLogger) : Nat → List OptionLogger → List OptionLogger
  | _, [] => []
  | 0, v :: vs => f v :: vs
  | i + 1, v :: vs => v :: updateAt f i vs

/-- Modelled from the spec: `logrus.Entry.Logf`, the entry's record handed to its
logger. -/
def Entry.Logf (e : Entry) (logs : List OptionLogger) (level : Level) (format : String)
    (args : List String) : List OptionLogger :=
  let r : Record := { Level := level, Data := e.Data, Message := Message.Sprintf format args }
  updateAt (fun v => { v with Logger := v.Logger.log r }) e.Logger logs

/-- Modelled from the spec: `logrus.Entry.Logln`. -/
def Entry.Logln (e : Entry) (logs : List OptionLogger) (level : Level)
    (args : List String) : List OptionLogger :=
  let r : Record := { Level := level, Data := e.Data, Message := Message.Sprintln args }
  updateAt (fun v => { v with Logger := v.Logger.log r }) e.Logger logs

/-! ### Entry methods used by the field-annotated calls -/

/-- Modelled from the spec: `logrus.Entry.Debugf`. -/
def Entry.Debugf (e : Entry) (logs : List OptionLogger) (format : String)
    (args : List String) : List OptionLogger :=
  e.Logf logs DebugLevel format args

/-- Modelled from the spec: `logrus.Entry.Infof`. -/
def Entry.Infof (e : Entry) (logs : List OptionLogger) (format : String)
    (args : List String) : List OptionLogger :=
  e.Logf logs InfoLevel format args

/-- Modelled from the spec: `logrus.Entry.Warnf`. -/
def Entry.Warnf (e : Entry) (logs : List OptionLogger) (format : String)
    (args : List String) : List OptionLogger :=
  e.Logf logs WarnLevel format args

/-- Modelled from the spec: `logrus.Entry.Errorf`. -/
def Entry.Errorf (e : Entry) (logs : List OptionLogger) (format : String)
    (args : List String) : List OptionLogger :=
  e.Logf logs ErrorLevel format args

/-- Modelled from the spec: `logrus.Entry.Debugln`. -/
def Entry.Debugln (e : Entry) (logs : List OptionLogger) (args : List String) :
    List OptionLogger :=
  e.Logln logs DebugLevel args

/-- Modelled from the spec: `logrus.Entry.Infoln`. -/
def Entry.Infoln (e : Entry) (logs : List OptionLogger) (args : List String) :
    List OptionLogger :=
  e.Logln logs InfoLevel args

/-- Modelled from the spec: `logrus.Entry.Warnln`. -/
def Entry.Warnln (e : Entry) (logs : List OptionLogger) (args : List String) :
    List OptionLogger :=
  e.Logln logs WarnLevel args

/-- Modelled from the spec: `logrus.Entry.Errorln`. -/
def Entry.Errorln (e : Entry) (logs : List OptionLogger) (args : List String) :
    List OptionLogger :=
  e.Logln logs ErrorLevel args

/-! ### The sixteen level methods of `LogEntry` -/

/-- Go `LogEntry.Debugf`. -/
def LogEntry.Debugf (GlobalLevel : LogLevel) (l : LogEntry) (format : String)
    (args : List String) : Except String LogEntry :=
  match LogLevel.Logrus GlobalLevel with
  | .error e => .error e
  | .ok g => if DebugLevel > g then .ok l else .ok (l.batchLogf DebugLevel format args)

/-- Go `LogEntry.Infof`. -/
def LogEntry.Infof (GlobalLevel : LogLevel) (l : LogEntry) (format : String)
    (args : List String) : Except String LogEntry :=
  match LogLevel.Logrus GlobalLevel with
  | .error e => .error e
  | .ok g => if InfoLevel > g then .ok l else .ok (l.batchLogf InfoLevel format args)

/-- Go `LogEntry.Warnf`. -/
def LogEntry.Warnf (GlobalLevel : LogLevel) (l : LogEntry) (format : String)
    (args : List String) : Except String LogEntry :=
  match LogLevel.Logrus GlobalLevel with
  | .error e => .error e
  | .ok g => if WarnLevel > g then .ok l else .ok (l.batchLogf WarnLevel format args)

/-- Go `LogEntry.Errorf`. -/
def LogEntry.Errorf (GlobalLevel : LogLevel) (l : LogEntry) (format : String)
    (args : List String) : Except String LogEntry :=
  match LogLevel.Logrus GlobalLevel with
  | .error e => .error e
  | .ok g => if ErrorLevel > g then .ok l else .ok (l.batchLogf ErrorLevel format args)

/-- Go `LogEntry.DebugfWith`. -/
def LogEntry.DebugfWith (GlobalLevel : LogLevel) (l : LogEntry) (fields : Fields)
    (format : String) (args : List String) : Except String LogEntry :=
  match LogLevel.Logrus GlobalLevel with
  | .error e => .error e
  | .ok g =>
    if DebugLevel > g then .ok l
    else .ok ⟨(l.withs DebugLevel fields).foldl (fun logs v => v.Debugf logs format args) l.logs⟩

/-- Go `LogEntry.InfofWith`. -/
def LogEntry.InfofWith (GlobalLevel : LogLevel) (l : LogEntry) (fields : Fields)
    (format : String) (args : List String) : Except String LogEntry :=
  match LogLevel.Logrus GlobalLevel with
  | .error e => .error e
  | .ok g =>
    if InfoLevel > g then .ok l
    else .ok ⟨(l.withs InfoLevel fields).foldl (fun logs v => v.Infof logs format args) l.logs⟩

/-- Go `LogEntry.WarnfWith`. -/
def LogEntry.WarnfWith (GlobalLevel : LogLevel) (l : LogEntry) (fields : Fields)
    (format : String) (args : List String) : Except String LogEntry :=
  match LogLevel.Logrus GlobalLevel with
  | .error e => .error e
  | .ok g =>
    if WarnLevel > g then .ok l
    else .ok ⟨(l.withs WarnLevel fields).foldl (fun logs v => v.Warnf logs format args) l.logs⟩

/-- Go `LogEntry.ErrorfWith`. -/
def LogEntry.ErrorfWith (GlobalLevel : LogLevel) (l : LogEntry) (fields : Fields)
    (format : String) (args : List String) : Except String LogEntry :=
  match LogLevel.Logrus GlobalLevel with
  | .error e => .error e
  | .ok g =>
    if ErrorLevel > g then .ok l
    else .ok ⟨(l.withs ErrorLevel fields).foldl (fun logs v => v.Errorf logs format args) l.logs⟩

/-- Go `LogEntry.DebugWith`. -/
def LogEntry.DebugWith (GlobalLevel : LogLevel) (l : LogEntry) (fields : Fields)
    (args : List String) : Except String LogEntry :=
  match LogLevel.Logrus GlobalLevel with
  | .error e => .error e
  | .ok g =>
    if DebugLevel > g then .ok l
    else .ok ⟨(l.withs DebugLevel fields).foldl (fun logs v => v.Debugln logs args) l.logs⟩

/-- Go `LogEntry.InfoWith`. -/
def LogEntry.InfoWith (GlobalLevel : LogLevel) (l : LogEntry) (fields : Fields)
    (args : List String) : Except String LogEntry :=
  match LogLevel.Logrus GlobalLevel with
  | .error e => .error e
  | .ok g =>
    if InfoLevel > g then .ok l
    else .ok ⟨(l.withs InfoLevel fields).foldl (fun logs v => v.Infoln logs args) l.logs⟩

/-- Go `LogEntry.WarnWith`. -/
def LogEntry.WarnWith (GlobalLevel : LogLevel) (l : LogEntry) (fields : Fields)
    (args : List String) : Except String LogEntry :=
  match LogLevel.Logrus GlobalLevel with
  | .error e => .error e
  | .ok g =>
    if WarnLevel > g then .ok l
    else .ok ⟨(l.withs WarnLevel fields).foldl (fun logs v => v.Warnln logs args) l.logs⟩

/-- Go `LogEntry.ErrorWith`. -/
def LogEntry.ErrorWith (GlobalLevel : LogLevel) (l : LogEntry) (fields : Fields)
    (args : List String) : Except String LogEntry :=
  match LogLevel.Logrus GlobalLevel with
  | .error e => .error e
  | .ok g =>
    if ErrorLevel > g then .ok l
    else .ok ⟨(l.withs ErrorLevel fields).foldl (fun logs v => v.Errorln logs args) l.logs⟩

/-- Go `LogEntry.Debug`. -/
def LogEntry.Debug (GlobalLevel : LogLevel) (l : LogEntry) (args : List String) :
    Except String LogEntry :=
  match LogLevel.Logrus GlobalLevel with
  | .error e => .error e
  | .ok g => if DebugLevel > g then .ok l else .ok (l.batchLogln DebugLevel args)

/-- Go `LogEntry.Info`. -/
def LogEntry.Info (GlobalLevel : LogLevel) (l : LogEntry) (args : List String) :
    Except String LogEntry :=
  match LogLevel.Logrus GlobalLevel with
  | .error e => .error e
  | .ok g => if InfoLevel > g then .ok l else .ok (l.batchLogln InfoLevel args)

/-- Go `LogEntry.Warn`. -/
def LogEntry.Warn (GlobalLevel : LogLevel) (l : LogEntry) (args : List String) :
    Except String LogEntry :=
  match LogLevel.Logrus GlobalLevel with
  | .error e => .error e
  | .ok g => if WarnLevel > g then .ok l else .ok (l.batchLogln WarnLevel args)

/-- Go `LogEntry.Error`. -/
def LogEntry.Error (GlobalLevel : LogLevel) (l : LogEntry) (args : List String) :
    Except String LogEntry :=
  match LogLevel.Logrus GlobalLevel with
  | .error e => .error e
  | .ok g => if ErrorLevel > g then .ok l else .ok (l.batchLogln ErrorLevel args)

/-! ### The process-wide default and its convenience calls -/

/-- Go `Debugf`, on the default dispatcher `_log`. -/
def Debugf (GlobalLevel : LogLevel) (_log : LogEntry) (format : String) (args : List String) :
    Except String LogEntry :=
  LogEntry.Debugf GlobalLevel _log format args

/-- Go `Infof`, on the default dispatcher `_log`. -/
def Infof (GlobalLevel : LogLevel) (_log : LogEntry) (format : String) (args : List String) :
    Except String LogEntry :=
  LogEntry.Infof GlobalLevel _log format args

/-- Go `Warnf`, on the default dispatcher `_log`. -/
def Warnf (GlobalLevel : LogLevel) (_log : LogEntry) (format : String) (args : List String) :
    Except String LogEntry :=
  LogEntry.Warnf GlobalLevel _log format args

/-- Go `Errorf`, on the default dispatcher `_log`. -/
def Errorf (GlobalLevel : LogLevel) (_log : LogEntry) (format : String) (args : List String) :
    Except String LogEntry :=
  LogEntry.Errorf GlobalLevel _log format args

/-- Go `Debug`, on the default dispatcher `_log`. -/
def Debug (GlobalLevel : LogLevel) (_log : LogEntry) (args : List String) :
    Except String LogEntry :=
  LogEntry.Debug GlobalLevel _log args

/-- Go `Info`, on the default dispatcher `_log`. -/
def Info (GlobalLevel : LogLevel) (_log : LogEntry) (args : List String) :
    Except String LogEntry :=
  LogEntry.Info GlobalLevel _log args

/-- Go `Warn`, on the default dispatcher `_log`. -/
def Warn (GlobalLevel : LogLevel) (_log : LogEntry) (args : List String) :
    Except String LogEntry :=
  LogEntry.Warn GlobalLevel _log args

/-- Go `Error`, on the default dispatcher `_log`. -/
def Error (GlobalLevel : LogLevel) (_log : LogEntry) (args : List String) :
    Except String LogEntry :=
  LogEntry.Error GlobalLevel _log args

/-- Go `DebugWith`, on the default dispatcher `_log`. -/
def DebugWith (GlobalLevel : LogLevel) (_log : LogEntry) (fields : Fields) (args : List String) :
    Except String LogEntry :=
  LogEntry.DebugWith GlobalLevel _log fields args

/-- Go `InfoWith`, on the default dispatcher `_log`. -/
def InfoWith (GlobalLevel : LogLevel) (_log : LogEntry) (fields : Fields) (args : List String) :
    Except String LogEntry :=
  LogEntry.InfoWith GlobalLevel _log fields args

/-- Go `WarnWith`, on the default dispatcher `_log`. -/
def WarnWith (GlobalLevel : LogLevel) (_log : LogEntry) (fields : Fields) (args : List String) :
    Except String LogEntry :=
  LogEntry.WarnWith GlobalLevel _log fields args

/-- Go `ErrorWith`, on the default dispatcher `_log`. -/
def ErrorWith (GlobalLevel : LogLevel) (_log : LogEntry) (fields : Fields) (args : List String) :
    Except String LogEntry :=
  LogEntry.ErrorWith GlobalLevel _log fields args

/-- Go `DebugfWith`, on the default dispatcher `_log`. -/
def DebugfWith (GlobalLevel : LogLevel) (_log : LogEntry) (fields : Fields) (format : String)
    (args : List String) : Except String LogEntry :=
  LogEntry.DebugfWith GlobalLevel _log fields format args

/-- Go `InfofWith`, on the default dispatcher `_log`. -/
def InfofWith (GlobalLevel : LogLevel) (_log : LogEntry) (fields : Fields) (format : String)
    (args : List String) : Except String LogEntry :=
  LogEntry.InfofWith GlobalLevel _log fields format args

/-- Go `WarnfWith`, on the default dispatcher `_log`. -/
def WarnfWith (GlobalLevel : LogLevel) (_log : LogEntry) (fields : Fields) (format : String)
    (args : List String) : Except String LogEntry :=
  LogEntry.WarnfWith GlobalLevel _log fields format args

/-- Go `ErrorfWith`, on the default dispatcher `_log`. -/
def ErrorfWith (GlobalLevel : LogLevel) (_log : LogEntry) (fields : Fields) (format : String)
    (args : List String) : Except String LogEntry :=
  LogEntry.ErrorfWith GlobalLevel _log fields format args

/-- Go `Operation.Setup`: the new value of the default dispatcher `_log`. -/
def Operation.Setup (env : Env) (r : Operation) (_log : LogEntry) : Except String LogEntry :=
  if r.Lcs.length != 0 then NewLogEntry env r.Lcs else .ok _log

/-- The option literal of the fallback in `init`; unset fields are Go zero
values. -/
def fallbackOption : LogOption :=
  { Level := DebugLevel
    Format := Formatter.TextFormatter
    OutType := ConsoleOut
    OutDir := ""
    MaxAge := 0
    MaxCount := 0
    SingleLevel := false
    Disabled := false }

/-- Go `init`: the value it assigns to the default dispatcher `_log`. -/
def init (env : Env) : Except String LogEntry :=
  let ymlFile := "config.yml"
  let yamlFile := "config.yaml"
  match (if !env.FileIsExist (utf8 ymlFile) then
      (if env.FileIsExist (utf8 yamlFile) then parseYaml env yamlFile else .ok [])
    else parseYaml env ymlFile) with
  | .error e => .error e
  | .ok lcs =>
    if lcs.length = 0 then NewLogEntryFromOption env [fallbackOption]
    else NewLogEntry env lcs

/-! ## Vocabulary of the specification -/

/-- The four severities of the specification, `Debug < Info < Warn < Error`. -/
inductive Severity where
  | Debug
  | Info
  | Warn
  | Error
  deriving DecidableEq, Repr

/-- Position of a severity in the order `Debug < Info < Warn < Error`. -/
def Severity.rank : Severity → Nat
  | .Debug => 0
  | .Info => 1
  | .Warn => 2
  | .Error => 3

/-- The configuration label of a severity (`DebugLog` .. `ErrorLog`). -/
def Severity.label : Severity → LogLevel
  | .Debug => DebugLog
  | .Info => InfoLog
  | .Warn => WarnLog
  | .Error => ErrorLog

/-- The logrus level the level methods of a severity pass on. -/
def Severity.logrus : Severity → Level
  | .Debug => DebugLevel
  | .Info => InfoLevel
  | .Warn => WarnLevel
  | .Error => ErrorLevel

/-- The four call shapes of a severity, with their arguments. -/
inductive Call where
  | plain (args : List String)
  | formatted (format : String) (args : List String)
  | plainWith (fields : Fields) (args : List String)
  | formattedWith (fields : Fields) (format : String) (args : List String)
  deriving DecidableEq, Repr

/-- The `LogEntry` method named by a severity and a call shape. -/
def LogEntry.call (S : Severity) (c : Call) (GlobalLevel : LogLevel) (l : LogEntry) :
    Except String LogEntry :=
  match S, c with
  | .Debug, .plain args => LogEntry.Debug GlobalLevel l args
  | .Debug, .formatted format args => LogEntry.Debugf GlobalLevel l format args
  | .Debug, .plainWith fields args => LogEntry.DebugWith GlobalLevel l fields args
  | .Debug, .formattedWith fields format args =>
    LogEntry.DebugfWith GlobalLevel l fields format args
  | .Info, .plain args => LogEntry.Info GlobalLevel l args
  | .Info, .formatted format args => LogEntry.Infof GlobalLevel l format args
  | .Info, .plainWith fields args => LogEntry.InfoWith GlobalLevel l fields args
  | .Info, .formattedWith fields format args =>
    LogEntry.InfofWith GlobalLevel l fields format args
  | .Warn, .plain args => LogEntry.Warn GlobalLevel l args
  | .Warn, .formatted format args => LogEntry.Warnf GlobalLevel l format args
  | .Warn, .plainWith fields args => LogEntry.WarnWith GlobalLevel l fields args
  | .Warn, .formattedWith fields format args =>
    LogEntry.WarnfWith GlobalLevel l fields format args
  | .Error, .plain args => LogEntry.Error GlobalLevel l args
  | .Error, .formatted format args => LogEntry.Errorf GlobalLevel l format args
  | .Error, .plainWith fields args => LogEntry.ErrorWith GlobalLevel l fields args
  | .Error, .formattedWith fields format args =>
    LogEntry.ErrorfWith GlobalLevel l fields format args

/-- The process-wide function named by a severity and a call shape, applied to
the default dispatcher. -/
def defaultCall (S : Severity) (c : Call) (GlobalLevel : LogLevel) (_log : LogEntry) :
    Except String LogEntry :=
  match S, c with
  | .Debug, .plain args => Debug GlobalLevel _log args
  | .Debug, .formatted format args => Debugf GlobalLevel _log format args
  | .Debug, .plainWith fields args => DebugWith GlobalLevel _log fields args
  | .Debug, .formattedWith fields format args =>
    DebugfWith GlobalLevel _log fields format args
  | .Info, .plain args => Info GlobalLevel _log args
  | .Info, .formatted format args => Infof GlobalLevel _log format args
  | .Info, .plainWith fields args => InfoWith GlobalLevel _log fields args
  | .Info, .formattedWith fields format args =>
    InfofWith GlobalLevel _log fields format args
  | .Warn, .plain args => Warn GlobalLevel _log args
  | .Warn, .formatted format args => Warnf GlobalLevel _log format args
  | .Warn, .plainWith fields args => WarnWith GlobalLevel _log fields args
  | .Warn, .formattedWith fields format args =>
    WarnfWith GlobalLevel _log fields format args
  | .Error, .plain args => Error GlobalLevel _log args
  | .Error, .formatted format args => Errorf GlobalLevel _log format args
  | .Error, .plainWith fields args => ErrorWith GlobalLevel _log fields args
  | .Error, .formattedWith fields format args =>
    ErrorfWith GlobalLevel _log fields format args

/-- The fan-out a call performs once it is past the gate: the batch loops for
the plain and formatted shapes, the loop over `withs` for the field-annotated
ones. -/
def LogEntry.fanOut (l : LogEntry) (level : Level) : Call → LogEntry
  | .plain args => l.batchLogln level args
  | .formatted format args => l.batchLogf level format args
  | .plainWith fields args =>
    ⟨(l.withs level fields).foldl (fun logs v => v.Logln logs level args) l.logs⟩
  | .formattedWith fields format args =>
    ⟨(l.withs level fields).foldl (fun logs v => v.Logf logs level format args) l.logs⟩

/-- The per-sink filter in the words of the specification: `singleLevelOnly` is
false, or the severity equals the sink's configured severity. -/
def OptionLogger.accepts (v : OptionLogger) (level : Level) : Bool :=
  !v.Op.SingleLevel || v.Op.Level == level

/-- A configuration that yields a sink: not disabled, and of a recognised
output kind. -/
def LogConfig.live (c : LogConfig) : Bool :=
  !c.Disabled && (c.OutType == ConsoleOut || c.OutType == FileOut)

/-- A sink with its history replaced: the same options and engine settings,
with `hd` handed and `wr` written so far. -/
def OptionLogger.withHistory (v : OptionLogger) (hd wr : List Record) : OptionLogger :=
  { v with Logger := { v.Logger with handed := hd, written := wr } }

/-! ## Concrete inputs -/

/-- An environment with no files, in which opening a rotating writer succeeds. -/
def emptyEnv : Env :=
  { FileIsExist := fun _ => false
    ReadFile := fun _ => .error "open: no such file or directory"
    Unmarshal := fun _ => .ok ⟨⟨[]⟩⟩
    MkdirAll := fun _ => none
    frlNewErr := fun _ _ _ _ => none }

/-- A console configuration at level debug, text format. -/
def consoleConfig : LogConfig :=
  { Level := DebugLog
    Format := TextLog
    OutType := ConsoleOut
    OutDir := ""
    MaxAge := 0
    MaxCount := 0
    SingleLevel := false
    Disabled := false }

/-- A configuration of an unrecognised output kind, not disabled. -/
def unknownKindConfig : LogConfig := { consoleConfig with OutType := "syslog" }

/-- A disabled console configuration. -/
def disabledConfig : LogConfig := { consoleConfig with Disabled := true }

/-- A disabled configuration whose level label is not one of the four. -/
def badLevelConfig : LogConfig := { consoleConfig with Level := "trace", Disabled := true }

/-- A console configuration with threshold warn. -/
def warnConfig : LogConfig := { consoleConfig with Level := WarnLog }

/-- A file configuration with `maxAge = 24` and `maxCount = 5`. -/
def ageCountConfig : LogConfig :=
  { consoleConfig with OutType := FileOut, OutDir := "logs", MaxAge := 24, MaxCount := 5 }

/-- File options writing to directory `dir`, other fields as in the fallback. -/
def fileOption (dir : String) : LogOption :=
  { fallbackOption with OutType := FileOut, OutDir := dir }

/-- Options of a single-level console sink at level error. -/
def errorOnlyOption : LogOption :=
  { fallbackOption with Level := ErrorLevel, SingleLevel := true }

/-- A single-level console sink at level warn, nothing logged yet. -/
def warnOnly : OptionLogger :=
  ⟨Logger.New Formatter.TextFormatter Writer.Stdout WarnLevel,
    { fallbackOption with Level := WarnLevel, SingleLevel := true }⟩

/-- A threshold console sink at level debug, nothing logged yet. -/
def normalDebug : OptionLogger :=
  ⟨Logger.New Formatter.TextFormatter Writer.Stdout DebugLevel, fallbackOption⟩

/-- An environment where only `config.yaml` exists and decodes to an empty sink
list. -/
def yamlEnv : Env :=
  { emptyEnv with
    FileIsExist := fun f => f == utf8 "config.yaml"
    ReadFile := fun _ => .ok "emix:" }

/-! ## Auxiliary lemmas -/

theorem call_gate (S1 S2 : Severity) (c : Call) (l : LogEntry) :
    LogEntry.call S1 c S2.label l =
      if S1.rank < S2.rank then .ok l else .ok (l.fanOut S1.logrus c) := by
  cases S1 <;> cases S2 <;> cases c <;> rfl

theorem defaultCall_eq (S : Severity) (c : Call) (G : LogLevel) (l : LogEntry) :
    defaultCall S c G l = LogEntry.call S c G l := by
  cases S <;> cases c <;> rfl

theorem newOptionLogger_some {env : Env} {op : LogOption} {v : OptionLogger}
    (h : newOptionLogger env op = .ok (some v)) :
    op.Disabled = false ∧
      ∃ w, outTypeToWriter env op = .ok (some w) ∧ v = ⟨Logger.New op.Format w op.Level, op⟩ := by
  unfold newOptionLogger at h
  cases hd : op.Disabled with
  | true => simp [hd] at h
  | false =>
    refine ⟨rfl, ?_⟩
    cases hw : outTypeToWriter env op with
    | error e => simp [hd, hw] at h
    | ok r =>
      cases r with
      | none => simp [hd, hw] at h
      | some w =>
        simp [hd, hw] at h
        exact ⟨w, rfl, h.symm⟩

theorem Option_ok {c : LogConfig} {op : LogOption} (h : LogConfig.Option c = .ok op) :
    LogLevel.Logrus c.Level = .ok op.Level ∧ LogFormat.Logrus c.Format = .ok op.Format ∧
      op.OutType = c.OutType ∧ op.OutDir = c.OutDir ∧ op.MaxCount = c.MaxCount ∧
      op.SingleLevel = c.SingleLevel ∧ op.Disabled = c.Disabled ∧
      op.MaxAge = wrapInt64 (wrapInt64 c.MaxAge * Hour) := by
  unfold LogConfig.Option at h
  cases hlv : LogLevel.Logrus c.Level with
  | error e => simp [hlv] at h
  | ok lv =>
    cases hfm : LogFormat.Logrus c.Format with
    | error e => simp [hlv, hfm] at h
    | ok fm =>
      simp [hlv, hfm] at h
      subst h
      exact ⟨rfl, rfl, rfl, rfl, rfl, rfl, rfl, rfl⟩

theorem Logrus_label (T : Severity) : LogLevel.Logrus T.label = .ok T.logrus := by
  cases T <;> rfl

theorem logrus_le_iff (T S : Severity) : S.logrus ≤ T.logrus ↔ T.rank ≤ S.rank := by
  cases T <;> cases S <;> decide

theorem updateAt_append (f : OptionLogger → OptionLogger) (pre : List OptionLogger)
    (v : OptionLogger) (vs : List OptionLogger) :
    updateAt f pre.length (pre ++ v :: vs) = pre ++ f v :: vs := by
  induction pre with
  | nil => rfl
  | cons p ps ih => simp [updateAt, ih]

theorem withsFrom_eq (level : Level) (fields : Fields) (i : Nat) (vs : List OptionLogger) :
    LogEntry.withsFrom level fields i vs =
      ((vs.enumFrom i).filter (fun p => p.2.accepts level)).map
        (fun p => ({ Logger := p.1, Data := fields } : Entry)) := by
  induction vs generalizing i with
  | nil => rfl
  | cons v vs ih =>
    by_cases h : v.accepts level = true
    · have h' : (v.Op.SingleLevel && v.Op.Level != level) = false := by
        simp [OptionLogger.accepts] at h
        cases hs : v.Op.SingleLevel <;> simp_all
      simp [LogEntry.withsFrom, List.enumFrom, h, h', ih]
    · have h' : (v.Op.SingleLevel && v.Op.Level != level) = true := by
        simp [OptionLogger.accepts] at h
        simp [h]
      simp [LogEntry.withsFrom, List.enumFrom, h, h', ih]

theorem foldl_withsFrom (level : Level) (fields : Fields) (g : Fields → OptionLogger → OptionLogger)
    (vs pre : List OptionLogger) :
    (LogEntry.withsFrom level fields pre.length vs).foldl
        (fun logs e => updateAt (g e.Data) e.Logger logs) (pre ++ vs) =
      pre ++ vs.map (fun v => if v.accepts level then g fields v else v) := by
  induction vs generalizing pre with
  | nil => simp [LogEntry.withsFrom]
  | cons v vs ih =>
    have hlen : (pre ++ [v]).length = pre.length + 1 := by simp
    have hlen' : (pre ++ [g fields v]).length = pre.length + 1 := by simp
    by_cases h : v.accepts level = true
    · have h' : (v.Op.SingleLevel && v.Op.Level != level) = false := by
        simp [OptionLogger.accepts] at h
        cases hs : v.Op.SingleLevel <;> simp_all
      have := ih (pre ++ [g fields v])
      rw [hlen'] at this
      simp only [LogEntry.withsFrom, h', List.map_cons, h, if_true, Bool.false_eq_true,
        if_false, List.foldl_cons]
      rw [updateAt_append]
      simpa using this
    · have h' : (v.Op.SingleLevel && v.Op.Level != level) = true := by
        simp [OptionLogger.accepts] at h
        simp [h]
      have := ih (pre ++ [v])
      rw [hlen] at this
      simp only [LogEntry.withsFrom, h', List.map_cons, h, if_true, Bool.false_eq_true,
        if_false]
      simpa using this

theorem Log_eq_accepts (v : OptionLogger) (level : Level) (args : List String) :
    v.Logln level args =
      if v.accepts level then { v with Logger := v.Logger.Logln level args } else v := by
  cases hs : v.Op.SingleLevel <;> by_cases h : v.Op.Level = level <;>
    simp [OptionLogger.Logln, OptionLogger.accepts, hs, h]

theorem Logf_eq_accepts (v : OptionLogger) (level : Level) (format : String)
    (args : List String) :
    v.Logf level format args =
      if v.accepts level then { v with Logger := v.Logger.Logf level format args } else v := by
  cases hs : v.Op.SingleLevel <;> by_cases h : v.Op.Level = level <;>
    simp [OptionLogger.Logf, OptionLogger.accepts, hs, h]

theorem FileOut_ne_ConsoleOut : FileOut ≠ ConsoleOut := by decide

theorem outTypeToWriter_file {env : Env} {op : LogOption} (h2 : op.OutType = FileOut) :
    outTypeToWriter env op =
      match resolveDir op with
      | .error e => .error e
      | .ok file =>
        match (if env.FileIsExist file then PanicError (env.MkdirAll file) else .ok ()) with
        | .error e => .error e
        | .ok _ =>
          match frlNew env (file ++ utf8 "/" ++ utf8 "%Y-%m-%d.log") (24 * Hour) op.MaxAge
              (if op.MaxAge ≠ 0 then 0 else op.MaxCount) with
          | .error e => .error e
          | .ok logf => .ok (some logf) := by
  unfold outTypeToWriter
  rw [if_neg (by rw [h2]; exact FileOut_ne_ConsoleOut), if_pos h2]
  by_cases h0 : op.MaxAge = 0 <;> simp [h0]

theorem outTypeToWriter_file_some {env : Env} {op : LogOption} {r : Option Writer}
    (h2 : op.OutType = FileOut) (h : outTypeToWriter env op = .ok r) :
    ∃ file, resolveDir op = .ok file ∧
      r = some (Writer.RotateLogs (file ++ utf8 "/" ++ utf8 "%Y-%m-%d.log") (24 * Hour) op.MaxAge
        (if op.MaxAge ≠ 0 then 0 else op.MaxCount)) := by
  rw [outTypeToWriter_file h2] at h
  cases hr : resolveDir op with
  | error e => simp [hr] at h
  | ok file =>
    refine ⟨file, rfl, ?_⟩
    simp only [hr] at h
    cases hm : (if env.FileIsExist file then PanicError (env.MkdirAll file) else .ok ()) with
    | error e => simp [hm] at h
    | ok u =>
      simp only [hm] at h
      unfold frlNew at h
      cases hf : env.frlNewErr (file ++ utf8 "/" ++ utf8 "%Y-%m-%d.log") (24 * Hour) op.MaxAge
          (if op.MaxAge ≠ 0 then 0 else op.MaxCount) with
      | some e =>
        rw [hf] at h
        cases h
      | none =>
        rw [hf] at h
        injection h with h
        exact h.symm

theorem outTypeToWriter_none_iff {env : Env} {op : LogOption} {r : Option Writer}
    (h : outTypeToWriter env op = .ok r) :
    r = none ↔ ¬ (op.OutType = ConsoleOut ∨ op.OutType = FileOut) := by
  by_cases h1 : op.OutType = ConsoleOut
  · simp [outTypeToWriter, h1] at h
    subst h
    simp [h1]
  · by_cases h2 : op.OutType = FileOut
    · obtain ⟨file, _, hr⟩ := outTypeToWriter_file_some h2 h
      simp [hr, h2]
    · simp [outTypeToWriter, h1, h2] at h
      subst h
      simp [h1, h2]

theorem loop_spec (env : Env) (lcs : List LogConfig) (acc : List OptionLogger)
    (h : ∀ c ∈ lcs, ∃ op r, LogConfig.Option c = .ok op ∧ newOptionLogger env op = .ok r) :
    ∃ logs, NewLogEntry.loop env lcs acc = .ok logs ∧
      logs.map (fun v => (Except.ok v.Op : Except String LogOption)) =
        acc.map (fun v => (Except.ok v.Op : Except String LogOption)) ++
          (lcs.filter LogConfig.live).map LogConfig.Option := by
  induction lcs generalizing acc with
  | nil => exact ⟨acc, rfl, by simp⟩
  | cons c cs ih =>
    obtain ⟨op, r, hop, hr⟩ := h c (List.mem_cons_self _ _)
    have hcs : ∀ c ∈ cs, ∃ op r, LogConfig.Option c = .ok op ∧ newOptionLogger env op = .ok r :=
      fun c' hc' => h c' (List.mem_cons_of_mem _ hc')
    obtain ⟨_, _, hot, _, _, _, hdis, _⟩ := Option_ok hop
    cases r with
    | none =>
      have hlive : c.live = false := by
        unfold newOptionLogger at hr
        cases hd : op.Disabled with
        | true => simp [LogConfig.live, ← hdis, hd]
        | false =>
          cases hw : outTypeToWriter env op with
          | error e => simp [hd, hw] at hr
          | ok w =>
            cases w with
            | some w => simp [hd, hw] at hr
            | none =>
              have := (outTypeToWriter_none_iff hw).1 rfl
              rw [hot] at this
              simp only [not_or] at this
              simp [LogConfig.live, this.1, this.2]
      obtain ⟨logs, hl, hm⟩ := ih acc hcs
      exact ⟨logs, by simp [NewLogEntry.loop, hop, hr, hl], by simp [hm, hlive]⟩
    | some v =>
      obtain ⟨hd, w, hw, rfl⟩ := newOptionLogger_some hr
      have hlive : c.live = true := by
        have := mt (outTypeToWriter_none_iff hw).2 (by simp)
        rw [hot, not_not] at this
        rw [hdis] at hd
        rcases this with h1 | h1 <;> simp [LogConfig.live, hd, h1]
      obtain ⟨logs, hl, hm⟩ := ih (acc ++ [⟨Logger.New op.Format w op.Level, op⟩]) hcs
      exact ⟨logs, by simp [NewLogEntry.loop, hop, hr, hl], by simp [hm, hlive, hop]⟩

theorem length_filter_compl (lcs : List LogConfig) :
    (lcs.filter LogConfig.live).length =
      lcs.length - (lcs.filter (fun c => c.Disabled ||
        !(c.OutType == ConsoleOut || c.OutType == FileOut))).length := by
  have h : ∀ l : List LogConfig, (l.filter LogConfig.live).length +
      (l.filter (fun c => c.Disabled ||
        !(c.OutType == ConsoleOut || c.OutType == FileOut))).length = l.length := by
    intro l
    induction l with
    | nil => rfl
    | cons c cs ih =>
      cases hc : c.live with
      | true =>
        have hc' : (c.Disabled || !(c.OutType == ConsoleOut || c.OutType == FileOut)) = false := by
          simp only [LogConfig.live] at hc
          revert hc
          cases c.Disabled <;> cases (c.OutType == ConsoleOut || c.OutType == FileOut) <;> simp
        simp only [List.filter_cons, hc, hc', if_true, List.length_cons, Bool.false_eq_true,
          if_false]
        omega
      | false =>
        have hc' : (c.Disabled || !(c.OutType == ConsoleOut || c.OutType == FileOut)) = true := by
          simp only [LogConfig.live] at hc
          revert hc
          cases c.Disabled <;> cases (c.OutType == ConsoleOut || c.OutType == FileOut) <;> simp
        simp only [List.filter_cons, hc, hc', if_true, List.length_cons, Bool.false_eq_true,
          if_false]
        omega
  have := h lcs
  omega

theorem lastIndexFrom_eq_last (c : UInt8) (xs : List UInt8) (i : Nat) (acc : Int)
    (hne : xs ≠ []) (hacc : acc < i) :
    lastIndexFrom c xs i acc = (i : Int) + xs.length - 1 ↔ xs.getLast? = some c := by
  induction xs generalizing i acc with
  | nil => exact absurd rfl hne
  | cons x xs ih =>
    cases xs with
    | nil =>
      by_cases hx : x = c
      · simp [lastIndexFrom, hx]
      · simp only [lastIndexFrom, hx, if_false, List.length_singleton, List.getLast?_singleton,
          Option.some.injEq, iff_false]
        push_cast
        omega
    | cons y ys =>
      have hacc' : (if x = c then (i : Int) else acc) < ((i + 1 : Nat) : Int) := by
        split <;> push_cast <;> omega
      have := ih (i + 1) (if x = c then (i : Int) else acc) (by simp) hacc'
      rw [List.getLast?_cons_cons, ← this]
      simp only [lastIndexFrom, List.length_cons]
      push_cast
      constructor <;> intro h <;> omega

theorem LastIndex_eq_last (file : GoString) (hne : file ≠ []) :
    LastIndex file slash = (file.length : Int) - 1 ↔ file.getLast? = some slash := by
  have := lastIndexFrom_eq_last slash file 0 (-1) hne (by decide)
  rw [← this]
  simp [LastIndex]

theorem trimDir_cut (d : GoString) (x : UInt8) : trimDir (d ++ [x, slash]) = .ok d := by
  have hne : d ++ [x, slash] ≠ [] := by simp
  have hlast : (d ++ [x, slash]).getLast? = some slash := by
    simp [List.getLast?_append]
  have hidx := (LastIndex_eq_last _ hne).2 hlast
  have hlen : (((d ++ [x, slash]).length : Nat) : Int) - 2 = (d.length : Int) := by
    simp only [List.length_append, List.length_cons, List.length_nil]
    push_cast
    omega
  unfold trimDir
  simp only [hidx, if_true]
  rw [hlen]
  unfold sliceTo
  have h1 : ¬ ((d.length : Int) < 0) := by omega
  have h2 : ¬ ((((d ++ [x, slash]).length : Nat) : Int) < (d.length : Int)) := by
    simp only [List.length_append, List.length_cons, List.length_nil]
    push_cast
    omega
  rw [if_neg h1, if_neg h2]
  simp

theorem trimDir_keep (file : GoString) (hne : file ≠ []) (h : file.getLast? ≠ some slash) :
    trimDir file = .ok file := by
  unfold trimDir
  simp only [mt (LastIndex_eq_last file hne).1 h, if_false]

theorem call_eq (S : Severity) (c : Call) (G : LogLevel) (l : LogEntry) :
    LogEntry.call S c G l =
      match LogLevel.Logrus G with
      | .error e => .error e
      | .ok g => if S.logrus > g then .ok l else .ok (l.fanOut S.logrus c) := by
  cases S <;> cases c <;> rfl

theorem Logrus_error (G : LogLevel)
    (h : ¬ (G = DebugLog ∨ G = InfoLog ∨ G = WarnLog ∨ G = ErrorLog)) :
    LogLevel.Logrus G = .error "unknown level" := by
  simp only [not_or] at h
  simp [LogLevel.Logrus, h.1, h.2.1, h.2.2.1, h.2.2.2]

theorem Logrus_ok_iff (G : LogLevel) :
    (∃ g, LogLevel.Logrus G = .ok g) ↔
      G = DebugLog ∨ G = InfoLog ∨ G = WarnLog ∨ G = ErrorLog := by
  constructor
  · rintro ⟨g, hg⟩
    by_contra hn
    rw [Logrus_error G hn] at hg
    cases hg
  · rintro (rfl | rfl | rfl | rfl) <;> exact ⟨_, rfl⟩

theorem fanOut_logs (l : LogEntry) (level : Level) (c : Call) :
    ∃ r : Record, r.Level = level ∧
      (l.fanOut level c).logs =
        l.logs.map (fun v => if v.accepts level then { v with Logger := v.Logger.log r } else v) := by
  cases c with
  | plain args =>
    exact ⟨⟨level, [], Message.Sprintln args⟩, rfl, by
      simp only [LogEntry.fanOut, LogEntry.batchLogln, Log_eq_accepts, Logger.Logln]⟩
  | formatted format args =>
    exact ⟨⟨level, [], Message.Sprintf format args⟩, rfl, by
      simp only [LogEntry.fanOut, LogEntry.batchLogf, Logf_eq_accepts, Logger.Logf]⟩
  | plainWith fields args =>
    refine ⟨⟨level, fields, Message.Sprintln args⟩, rfl, ?_⟩
    have := foldl_withsFrom level fields
      (fun d v => { v with Logger := v.Logger.log ⟨level, d, Message.Sprintln args⟩ })
      l.logs []
    simp only [List.length_nil, List.nil_append] at this
    simp only [LogEntry.fanOut, LogEntry.withs, Entry.Logln]
    rw [this]
  | formattedWith fields format args =>
    refine ⟨⟨level, fields, Message.Sprintf format args⟩, rfl, ?_⟩
    have := foldl_withsFrom level fields
      (fun d v => { v with Logger := v.Logger.log ⟨level, d, Message.Sprintf format args⟩ })
      l.logs []
    simp only [List.length_nil, List.nil_append] at this
    simp only [LogEntry.fanOut, LogEntry.withs, Entry.Logf]
    rw [this]

theorem fatal_lt_logrus (S : Severity) : FatalLevel < S.logrus := by
  cases S <;> decide

/-! ## The claims -/

/-- C1. Global gate: with `GlobalLevel` set to severity `S2`, a call at a lower
severity `S1`, in any of the four shapes, returns the dispatcher unchanged
(nothing is handed to any sink); a call at a severity at or above
`GlobalLevel` is not stopped and returns the fan-out over the sinks. -/
theorem global_gate (S1 S2 : Severity) (c : Call) (l : LogEntry) :
    (S1.rank < S2.rank → LogEntry.call S1 c S2.label l = .ok l) ∧
    (S2.rank ≤ S1.rank → LogEntry.call S1 c S2.label l = .ok (l.fanOut S1.logrus c)) := by
  cases S1 <;> cases S2 <;> cases c <;> refine ⟨fun h => ?_, fun h => ?_⟩ <;>
    first
      | exact absurd h (by decide)
      | rfl

/-- Witness of C1: an Info call under `GlobalLevel = warn` leaves a console sink
untouched, and a Warn call under the same gate reaches it. -/
theorem global_gate_witness :
    LogEntry.call .Info (.plain ["m"]) WarnLog
        ⟨[⟨Logger.New .TextFormatter .Stdout DebugLevel, fallbackOption⟩]⟩ =
      .ok ⟨[⟨Logger.New .TextFormatter .Stdout DebugLevel, fallbackOption⟩]⟩ ∧
    LogEntry.call .Warn (.plain ["m"]) WarnLog
        ⟨[⟨Logger.New .TextFormatter .Stdout DebugLevel, fallbackOption⟩]⟩ =
      .ok (LogEntry.fanOut ⟨[⟨Logger.New .TextFormatter .Stdout DebugLevel, fallbackOption⟩]⟩
        WarnLevel (.plain ["m"])) :=
  ⟨(global_gate .Info .Warn (.plain ["m"]) _).1 (by decide),
   (global_gate .Warn .Warn (.plain ["m"]) _).2 (by decide)⟩

/-- C2. Single-level sink: a sink built by `newOptionLogger` from options with
`SingleLevel = true` has its engine level set to the options' level `L`, and, at
any point of its history, `Log`, `Logf` and `Logln` at a call level `S` make it
write exactly one more record when `S = L` and nothing when `S ≠ L`. -/
theorem single_level_sink (env : Env) (op : LogOption) (v0 : OptionLogger)
    (hd wr : List Record) (S : Level) (format : String) (args : List String)
    (hb : newOptionLogger env op = .ok (some v0)) (hs : op.SingleLevel = true) :
    v0.Logger.Level = op.Level ∧
    ((v0.withHistory hd wr).Log S args).Logger.written =
      wr ++ (if S = op.Level then [⟨S, [], Message.Sprint args⟩] else []) ∧
    ((v0.withHistory hd wr).Logf S format args).Logger.written =
      wr ++ (if S = op.Level then [⟨S, [], Message.Sprintf format args⟩] else []) ∧
    ((v0.withHistory hd wr).Logln S args).Logger.written =
      wr ++ (if S = op.Level then [⟨S, [], Message.Sprintln args⟩] else []) := by
  obtain ⟨_, w, _, rfl⟩ := newOptionLogger_some hb
  refine ⟨rfl, ?_, ?_, ?_⟩ <;>
    by_cases h : S = op.Level <;>
    simp [OptionLogger.Log, OptionLogger.Logf, OptionLogger.Logln, OptionLogger.withHistory,
      Logger.Log, Logger.Logf, Logger.Logln, Logger.log, Logger.IsLevelEnabled, Logger.New, hs, h,
      eq_comm]

/-- Witness of C2: a single-level Error console sink writes an Error call and
writes nothing for an Info call. -/
theorem single_level_sink_witness :
    newOptionLogger emptyEnv errorOnlyOption =
      .ok (some ⟨Logger.New errorOnlyOption.Format Writer.Stdout ErrorLevel, errorOnlyOption⟩) ∧
    ((OptionLogger.withHistory
        ⟨Logger.New errorOnlyOption.Format Writer.Stdout ErrorLevel, errorOnlyOption⟩ [] []).Log
        ErrorLevel ["m"]).Logger.written = [⟨ErrorLevel, [], Message.Sprint ["m"]⟩] ∧
    ((OptionLogger.withHistory
        ⟨Logger.New errorOnlyOption.Format Writer.Stdout ErrorLevel, errorOnlyOption⟩ [] []).Log
        InfoLevel ["m"]).Logger.written = [] :=
  ⟨rfl,
   (single_level_sink emptyEnv errorOnlyOption _ [] [] ErrorLevel "" ["m"] rfl rfl).2.1.trans
     (by decide),
   (single_level_sink emptyEnv errorOnlyOption _ [] [] InfoLevel "" ["m"] rfl rfl).2.1.trans
     (by decide)⟩

/-- C3. Threshold sink: a sink built from a configuration with
`singleLevel = false` and level `T` has its engine level set from `T`; at any
point of its history every call at a severity `S` is handed to the engine by
`Log`, `Logf` and `Logln`, and the engine writes the record exactly when
`S ≥ T` in the order `Debug < Info < Warn < Error`. A dispatcher call that passes
the global gate applies `Logln` (plain) or `Logf` (formatted) to the sink. -/
theorem threshold_sink (env : Env) (c : LogConfig) (op : LogOption) (v0 : OptionLogger)
    (hd wr : List Record) (T S : Severity) (format : String) (args : List String)
    (hc : LogConfig.Option c = .ok op) (hT : c.Level = T.label) (hs : c.SingleLevel = false)
    (hb : newOptionLogger env op = .ok (some v0)) :
    v0.Logger.Level = T.logrus ∧
    (((v0.withHistory hd wr).Log S.logrus args).Logger.handed =
        hd ++ [⟨S.logrus, [], Message.Sprint args⟩] ∧
      ((v0.withHistory hd wr).Log S.logrus args).Logger.written =
        wr ++ (if T.rank ≤ S.rank then [⟨S.logrus, [], Message.Sprint args⟩] else [])) ∧
    (((v0.withHistory hd wr).Logf S.logrus format args).Logger.handed =
        hd ++ [⟨S.logrus, [], Message.Sprintf format args⟩] ∧
      ((v0.withHistory hd wr).Logf S.logrus format args).Logger.written =
        wr ++ (if T.rank ≤ S.rank then [⟨S.logrus, [], Message.Sprintf format args⟩] else [])) ∧
    (((v0.withHistory hd wr).Logln S.logrus args).Logger.handed =
        hd ++ [⟨S.logrus, [], Message.Sprintln args⟩] ∧
      ((v0.withHistory hd wr).Logln S.logrus args).Logger.written =
        wr ++ (if T.rank ≤ S.rank then [⟨S.logrus, [], Message.Sprintln args⟩] else [])) ∧
    (∀ (G : Severity) (l : LogEntry) (i : Nat), G.rank ≤ S.rank →
      l.logs[i]? = some (v0.withHistory hd wr) →
      (∃ l1, LogEntry.call S (.plain args) G.label l = .ok l1 ∧
        l1.logs[i]? = some ((v0.withHistory hd wr).Logln S.logrus args)) ∧
      (∃ l2, LogEntry.call S (.formatted format args) G.label l = .ok l2 ∧
        l2.logs[i]? = some ((v0.withHistory hd wr).Logf S.logrus format args))) := by
  obtain ⟨hlv, _, _, _, _, hsl, _, _⟩ := Option_ok hc
  obtain ⟨_, w, _, rfl⟩ := newOptionLogger_some hb
  rw [hT, Logrus_label] at hlv
  injection hlv with hlv
  rw [hs] at hsl
  have hth : ∀ r : List Record, (if S.logrus ≤ op.Level then wr ++ r else wr) =
      wr ++ (if T.rank ≤ S.rank then r else []) := by
    intro r
    rw [← hlv]
    by_cases h : T.rank ≤ S.rank
    · simp [h, (logrus_le_iff T S).2 h]
    · simp [h, mt (logrus_le_iff T S).1 h]
  refine ⟨hlv.symm, ?_, ?_, ?_, ?_⟩
  · simp [OptionLogger.Log, OptionLogger.withHistory, Logger.Log, Logger.log,
      Logger.IsLevelEnabled, Logger.New, hsl, hth]
  · simp [OptionLogger.Logf, OptionLogger.withHistory, Logger.Logf, Logger.log,
      Logger.IsLevelEnabled, Logger.New, hsl, hth]
  · simp [OptionLogger.Logln, OptionLogger.withHistory, Logger.Logln, Logger.log,
      Logger.IsLevelEnabled, Logger.New, hsl, hth]
  · intro G l i hG hi
    have hng : ¬ S.rank < G.rank := Nat.not_lt.mpr hG
    refine ⟨⟨_, by rw [call_gate, if_neg hng], ?_⟩, ⟨_, by rw [call_gate, if_neg hng], ?_⟩⟩
    · simp [LogEntry.fanOut, LogEntry.batchLogln, List.getElem?_map, hi]
    · simp [LogEntry.fanOut, LogEntry.batchLogf, List.getElem?_map, hi]

/-- Witness of C3: a console sink with threshold warn is handed an Info call
but does not write it, and writes an Error call. -/
theorem threshold_sink_witness :
    newOptionLogger emptyEnv { fallbackOption with Level := WarnLevel } =
      .ok (some ⟨Logger.New Formatter.TextFormatter Writer.Stdout WarnLevel,
        { fallbackOption with Level := WarnLevel }⟩) ∧
    ((OptionLogger.withHistory ⟨Logger.New Formatter.TextFormatter Writer.Stdout WarnLevel,
        { fallbackOption with Level := WarnLevel }⟩ [] []).Log InfoLevel ["m"]).Logger.handed =
      [⟨InfoLevel, [], Message.Sprint ["m"]⟩] ∧
    ((OptionLogger.withHistory ⟨Logger.New Formatter.TextFormatter Writer.Stdout WarnLevel,
        { fallbackOption with Level := WarnLevel }⟩ [] []).Log InfoLevel ["m"]).Logger.written =
      [] ∧
    ((OptionLogger.withHistory ⟨Logger.New Formatter.TextFormatter Writer.Stdout WarnLevel,
        { fallbackOption with Level := WarnLevel }⟩ [] []).Log ErrorLevel ["m"]).Logger.written =
      [⟨ErrorLevel, [], Message.Sprint ["m"]⟩] :=
  ⟨rfl,
   (threshold_sink emptyEnv warnConfig _ _ [] [] .Warn .Info "" ["m"] rfl rfl rfl rfl).2.1.1,
   (threshold_sink emptyEnv warnConfig _ _ [] [] .Warn .Info "" ["m"] rfl rfl rfl rfl).2.1.2,
   (threshold_sink emptyEnv warnConfig _ _ [] [] .Warn .Error "" ["m"] rfl rfl rfl rfl).2.1.2⟩

/-- C4. Field-annotated fan-out: `withs` returns, in sink order, exactly one
entry carrying the fields for each sink whose options satisfy
`SingleLevel = false` or `Level = S`, and none for the others; a `SWith` or
`SfWith` call past the gate hands its record, with the fields attached, to
exactly those sinks, which are also exactly the sinks the plain `S` and `Sf`
calls are forwarded to. -/
theorem withs_fan_out (l : LogEntry) (S G : Severity) (fields : Fields) (format : String)
    (args : List String) (hG : G.rank ≤ S.rank) :
    l.withs S.logrus fields =
      ((l.logs.enum.filter (fun p => p.2.accepts S.logrus)).map
        (fun p => ({ Logger := p.1, Data := fields } : Entry))) ∧
    LogEntry.call S (.plainWith fields args) G.label l =
      .ok ⟨l.logs.map (fun v => if v.accepts S.logrus then
        { v with Logger := v.Logger.log ⟨S.logrus, fields, Message.Sprintln args⟩ } else v)⟩ ∧
    LogEntry.call S (.formattedWith fields format args) G.label l =
      .ok ⟨l.logs.map (fun v => if v.accepts S.logrus then
        { v with Logger := v.Logger.log ⟨S.logrus, fields, Message.Sprintf format args⟩ }
        else v)⟩ ∧
    LogEntry.call S (.plain args) G.label l =
      .ok ⟨l.logs.map (fun v => if v.accepts S.logrus then
        { v with Logger := v.Logger.log ⟨S.logrus, [], Message.Sprintln args⟩ } else v)⟩ ∧
    LogEntry.call S (.formatted format args) G.label l =
      .ok ⟨l.logs.map (fun v => if v.accepts S.logrus then
        { v with Logger := v.Logger.log ⟨S.logrus, [], Message.Sprintf format args⟩ }
        else v)⟩ := by
  have hng : ¬ S.rank < G.rank := Nat.not_lt.mpr hG
  refine ⟨withsFrom_eq _ _ 0 l.logs, ?_, ?_, ?_, ?_⟩
  · rw [call_gate, if_neg hng]
    have := foldl_withsFrom S.logrus fields
      (fun d v => { v with Logger := v.Logger.log ⟨S.logrus, d, Message.Sprintln args⟩ })
      l.logs []
    simp only [List.length_nil, List.nil_append] at this
    simp only [LogEntry.fanOut, LogEntry.withs, Entry.Logln]
    rw [this]
  · rw [call_gate, if_neg hng]
    have := foldl_withsFrom S.logrus fields
      (fun d v => { v with Logger := v.Logger.log ⟨S.logrus, d, Message.Sprintf format args⟩ })
      l.logs []
    simp only [List.length_nil, List.nil_append] at this
    simp only [LogEntry.fanOut, LogEntry.withs, Entry.Logf]
    rw [this]
  · rw [call_gate, if_neg hng]
    simp only [LogEntry.fanOut, LogEntry.batchLogln, Log_eq_accepts, Logger.Logln]
  · rw [call_gate, if_neg hng]
    simp only [LogEntry.fanOut, LogEntry.batchLogf, Logf_eq_accepts, Logger.Logf]

/-- Witness of C4: with a single-level Warn sink and a normal Debug sink, an
`InfoWith` call with fields `user = a` yields one entry, for the normal sink,
which is the only sink that receives and writes the record. -/
theorem withs_fan_out_witness :
    LogEntry.withs ⟨[warnOnly, normalDebug]⟩ InfoLevel [("user", "a")] = [⟨1, [("user", "a")]⟩] ∧
    LogEntry.InfoWith DebugLog ⟨[warnOnly, normalDebug]⟩ [("user", "a")] ["m"] =
      .ok ⟨[warnOnly, { normalDebug with Logger :=
        { normalDebug.Logger with
          handed := [⟨InfoLevel, [("user", "a")], Message.Sprintln ["m"]⟩]
          written := [⟨InfoLevel, [("user", "a")], Message.Sprintln ["m"]⟩] } }]⟩ := by
  have h := withs_fan_out ⟨[warnOnly, normalDebug]⟩ .Info .Debug [("user", "a")] "" ["m"]
    (by decide)
  refine ⟨h.1.trans (by decide), h.2.1.trans (by decide)⟩

/-- C5 (amended). Sink count and order: when every configuration of the list
converts and materialises without a fatal error, `NewLogEntry` returns a
dispatcher whose live sinks number `N - K`, `K` counting the configurations
that are disabled or of an output kind other than console and file, and the
sinks carry, in input order, the options of the remaining configurations. -/
theorem sink_count_and_order (env : Env) (lcs : List LogConfig)
    (h : ∀ c ∈ lcs, ∃ op r, LogConfig.Option c = .ok op ∧ newOptionLogger env op = .ok r) :
    ∃ l, NewLogEntry env lcs = .ok l ∧
      l.logs.length = lcs.length - (lcs.filter (fun c => c.Disabled ||
        !(c.OutType == ConsoleOut || c.OutType == FileOut))).length ∧
      l.logs.map (fun v => (Except.ok v.Op : Except String LogOption)) =
        (lcs.filter (fun c => !c.Disabled &&
          (c.OutType == ConsoleOut || c.OutType == FileOut))).map LogConfig.Option := by
  obtain ⟨logs, hl, hm⟩ := loop_spec env lcs [] h
  refine ⟨⟨logs⟩, by simp [NewLogEntry, hl], ?_, by simpa using hm⟩
  rw [← length_filter_compl]
  have := congrArg List.length hm
  simpa using this

/-- Witness of C5: of a disabled, a console and an unknown-kind configuration
only the console one yields a sink. -/
theorem sink_count_and_order_witness :
    ∃ l, NewLogEntry emptyEnv [disabledConfig, consoleConfig, unknownKindConfig] = .ok l ∧
      l.logs.length = 3 - 2 ∧
      l.logs.map (fun v => (Except.ok v.Op : Except String LogOption)) =
        [LogConfig.Option consoleConfig] := by
  have h := sink_count_and_order emptyEnv [disabledConfig, consoleConfig, unknownKindConfig]
    (by
      intro c hc
      simp only [List.mem_cons, List.mem_singleton, List.not_mem_nil, or_false] at hc
      rcases hc with rfl | rfl | rfl <;> exact ⟨_, _, rfl, rfl⟩)
  obtain ⟨l, h1, h2, h3⟩ := h
  exact ⟨l, h1, h2.trans (by decide), h3.trans (by decide)⟩

/-- Counterexample to C5 as stated: one configuration, not disabled, of output
kind `syslog` gives a dispatcher with no sink although `N - K = 1`; and a
disabled configuration with an unknown level label makes `NewLogEntry` panic
instead of yielding a dispatcher. -/
theorem sink_count_counterexample :
    NewLogEntry emptyEnv [unknownKindConfig] = .ok ⟨[]⟩ ∧
    [unknownKindConfig].length - ([unknownKindConfig].filter (fun c => c.Disabled)).length = 1 ∧
    NewLogEntry emptyEnv [badLevelConfig] = .error "unknown level" := by
  decide

/-- C6 (amended). A level-named logging call, instance-bound or process-wide, in
any shape, with any arguments and on any dispatcher of this embedding (sinks
with the Text or JSON formatter, also no sink at all), returns normally if and
only if `GlobalLevel` holds one of the four level labels. A call that returns
keeps the number of sinks and each sink's options and engine settings, and
hands each engine at most one record, at the level of the call, which is never
the Panic or Fatal level. -/
theorem logging_returns (S : Severity) (c : Call) (G : LogLevel) (l : LogEntry) :
    ((∃ r, LogEntry.call S c G l = .ok r) ↔
      G = DebugLog ∨ G = InfoLog ∨ G = WarnLog ∨ G = ErrorLog) ∧
    ((∃ r, defaultCall S c G l = .ok r) ↔
      G = DebugLog ∨ G = InfoLog ∨ G = WarnLog ∨ G = ErrorLog) ∧
    (∀ r, LogEntry.call S c G l = .ok r →
      r.logs.length = l.logs.length ∧
      ∀ (i : Nat) (v : OptionLogger), l.logs[i]? = some v →
        ∃ v1, r.logs[i]? = some v1 ∧ v1.Op = v.Op ∧ v1.Logger.Level = v.Logger.Level ∧
          v1.Logger.Out = v.Logger.Out ∧ v1.Logger.Formatter = v.Logger.Formatter ∧
          (v1.Logger.handed = v.Logger.handed ∨
            ∃ rec : Record, v1.Logger.handed = v.Logger.handed ++ [rec] ∧
              rec.Level = S.logrus ∧ FatalLevel < rec.Level)) := by
  have hret : (∃ r, LogEntry.call S c G l = .ok r) ↔
      G = DebugLog ∨ G = InfoLog ∨ G = WarnLog ∨ G = ErrorLog := by
    rw [← Logrus_ok_iff, call_eq]
    cases hG : LogLevel.Logrus G with
    | error e => simp
    | ok g =>
      by_cases hgt : S.logrus > g
      · simp [hgt]
      · simp [hgt]
  refine ⟨hret, by rw [defaultCall_eq]; exact hret, ?_⟩
  intro r hr
  rw [call_eq] at hr
  cases hG : LogLevel.Logrus G with
  | error e => simp [hG] at hr
  | ok g =>
    simp only [hG] at hr
    by_cases hgt : S.logrus > g
    · rw [if_pos hgt] at hr
      injection hr with hr
      subst hr
      exact ⟨rfl, fun i v hv => ⟨v, hv, rfl, rfl, rfl, rfl, Or.inl rfl⟩⟩
    · rw [if_neg hgt] at hr
      injection hr with hr
      subst hr
      obtain ⟨rec, hrec, hlogs⟩ := fanOut_logs l S.logrus c
      rw [hlogs]
      refine ⟨by simp, fun i v hv => ?_⟩
      by_cases hacc : v.accepts S.logrus = true
      · refine ⟨{ v with Logger := v.Logger.log rec }, by simp [List.getElem?_map, hv, hacc],
          rfl, rfl, rfl, rfl, Or.inr ⟨rec, rfl, hrec, ?_⟩⟩
        rw [hrec]
        exact fatal_lt_logrus S
      · exact ⟨v, by simp [List.getElem?_map, hv, hacc], rfl, rfl, rfl, rfl, Or.inl rfl⟩

/-- Witness of C6: a Warn call under `GlobalLevel = warn` on a dispatcher of two
sinks returns, and the dispatcher it returns still has two sinks. -/
theorem logging_returns_witness :
    (∃ r, LogEntry.call .Warn (.plain ["m"]) WarnLog ⟨[warnOnly, normalDebug]⟩ = .ok r) ∧
    (LogEntry.fanOut ⟨[warnOnly, normalDebug]⟩ WarnLevel (.plain ["m"])).logs.length = 2 :=
  ⟨(logging_returns .Warn (.plain ["m"]) WarnLog ⟨[warnOnly, normalDebug]⟩).1.2
      (Or.inr (Or.inr (Or.inl rfl))),
   ((logging_returns .Warn (.plain ["m"]) WarnLog ⟨[warnOnly, normalDebug]⟩).2.2 _ rfl).1⟩

/-- Counterexample to C6 as stated: with `GlobalLevel` set to a label outside
the four, a logging call panics with `unknown level`, even on a dispatcher
without sinks. -/
theorem logging_panics_on_unknown_global_level :
    LogEntry.call .Debug (.plain ["m"]) "trace" ⟨[]⟩ = .error "unknown level" ∧
    defaultCall .Error (.formatted "%s" ["m"]) "" ⟨[]⟩ = .error "unknown level" := by
  decide

/-- C7. Setup swap: `Operation.Setup` makes the default dispatcher the result of
`NewLogEntry(Lcs...)` when `Lcs` is non-empty and leaves it exactly as it was
when `Lcs` is empty; the operation `AfterInit` returns without explicit
configurations and without an existing file has an empty list, so its `Setup`
leaves the default untouched. -/
theorem setup_swap (env : Env) (r : Operation) (_log : LogEntry) :
    (r.Lcs ≠ [] → r.Setup env _log = NewLogEntry env r.Lcs) ∧
    (r.Lcs = [] → r.Setup env _log = .ok _log) ∧
    (∀ yamlFile : String, yamlFile = "" ∨ env.FileIsExist (utf8 yamlFile) = false →
      ∃ oper, AfterInit env yamlFile [] = .ok oper ∧ oper.Lcs = [] ∧
        oper.Setup env _log = .ok _log) := by
  refine ⟨fun h => ?_, fun h => ?_, fun yamlFile h => ?_⟩
  · cases hl : r.Lcs with
    | nil => exact absurd hl h
    | cons c cs => simp [Operation.Setup, hl]
  · simp [Operation.Setup, h]
  · refine ⟨⟨[]⟩, ?_, rfl, by simp [Operation.Setup]⟩
    rcases h with h | h <;> simp [AfterInit, h]

/-- Witness of C7: a one-configuration setup installs `NewLogEntry` of it, an
empty setup and the operation of a missing file keep the previous default. -/
theorem setup_swap_witness :
    Operation.Setup emptyEnv ⟨[consoleConfig]⟩ ⟨[]⟩ = NewLogEntry emptyEnv [consoleConfig] ∧
    Operation.Setup emptyEnv ⟨[]⟩ ⟨[normalDebug]⟩ = .ok ⟨[normalDebug]⟩ ∧
    ∃ oper, AfterInit emptyEnv "missing.yaml" [] = .ok oper ∧ oper.Lcs = [] ∧
      oper.Setup emptyEnv ⟨[normalDebug]⟩ = .ok ⟨[normalDebug]⟩ :=
  ⟨(setup_swap emptyEnv ⟨[consoleConfig]⟩ ⟨[]⟩).1 (by decide),
   (setup_swap emptyEnv ⟨[]⟩ ⟨[normalDebug]⟩).2.1 rfl,
   (setup_swap emptyEnv ⟨[]⟩ ⟨[normalDebug]⟩).2.2 "missing.yaml" (Or.inr rfl)⟩

/-- C8. Fallback default: when neither `config.yml` nor `config.yaml` exists, or
the discovered file yields an empty sink list, `init` builds a dispatcher with
exactly one sink, whose options are console, Debug, Text, not single-level and
not disabled, writing to standard output. -/
theorem fallback_default (env : Env)
    (h : (env.FileIsExist (utf8 "config.yml") = false ∧
        env.FileIsExist (utf8 "config.yaml") = false) ∨
      (env.FileIsExist (utf8 "config.yml") = true ∧ parseYaml env "config.yml" = .ok []) ∨
      (env.FileIsExist (utf8 "config.yml") = false ∧
        env.FileIsExist (utf8 "config.yaml") = true ∧
        parseYaml env "config.yaml" = .ok [])) :
    ∃ v, init env = .ok ⟨[v]⟩ ∧ v.Op.OutType = ConsoleOut ∧ v.Op.Level = DebugLevel ∧
      v.Op.Format = Formatter.TextFormatter ∧ v.Op.SingleLevel = false ∧
      v.Op.Disabled = false ∧ v.Logger.Out = Writer.Stdout ∧ v.Logger.Level = DebugLevel := by
  refine ⟨⟨Logger.New .TextFormatter .Stdout DebugLevel, fallbackOption⟩, ?_,
    rfl, rfl, rfl, rfl, rfl, rfl, rfl⟩
  have hfb : NewLogEntryFromOption env [fallbackOption] =
      .ok ⟨[⟨Logger.New .TextFormatter .Stdout DebugLevel, fallbackOption⟩]⟩ := rfl
  rcases h with ⟨h1, h2⟩ | ⟨h1, h2⟩ | ⟨h1, h2, h3⟩
  · simp [init, h1, h2, hfb]
  · simp [init, h1, h2, hfb]
  · simp [init, h1, h2, h3, hfb]

/-- Witness of C8: the fallback is built both without any file and with a
`config.yaml` that lists no sink. -/
theorem fallback_default_witness :
    (∃ v, init emptyEnv = .ok ⟨[v]⟩ ∧ v.Op.OutType = ConsoleOut ∧ v.Op.Level = DebugLevel ∧
      v.Op.Format = Formatter.TextFormatter ∧ v.Op.SingleLevel = false ∧
      v.Op.Disabled = false ∧ v.Logger.Out = Writer.Stdout ∧ v.Logger.Level = DebugLevel) ∧
    (∃ v, init yamlEnv = .ok ⟨[v]⟩ ∧ v.Op.OutType = ConsoleOut ∧ v.Op.Level = DebugLevel ∧
      v.Op.Format = Formatter.TextFormatter ∧ v.Op.SingleLevel = false ∧
      v.Op.Disabled = false ∧ v.Logger.Out = Writer.Stdout ∧ v.Logger.Level = DebugLevel) :=
  ⟨fallback_default emptyEnv (Or.inl ⟨rfl, rfl⟩),
   fallback_default yamlEnv (Or.inr (Or.inr ⟨by decide, by decide, by decide⟩))⟩

/-- C9 (amended). Age wins over count at the writer: for a file sink the rotating
writer is opened with rotation count 0 when the options' `MaxAge` is non-zero
and with the configured `MaxCount` when `MaxAge = 0`; the options stored in
the sink are the ones it was built from, so their `MaxCount` is still the
configured one. -/
theorem age_wins_over_count (env : Env) (op : LogOption) (v : OptionLogger)
    (hf : op.OutType = FileOut) (hb : newOptionLogger env op = .ok (some v)) :
    (op.MaxAge ≠ 0 → ∃ p, v.Logger.Out = Writer.RotateLogs p (24 * Hour) op.MaxAge 0) ∧
    (op.MaxAge = 0 → ∃ p, v.Logger.Out = Writer.RotateLogs p (24 * Hour) 0 op.MaxCount) ∧
    v.Op = op ∧
    (∀ c, LogConfig.Option c = .ok op → v.Op.MaxCount = c.MaxCount) := by
  obtain ⟨_, w, hw, rfl⟩ := newOptionLogger_some hb
  obtain ⟨file, _, hr⟩ := outTypeToWriter_file_some hf hw
  injection hr with hr
  subst hr
  refine ⟨fun h => ⟨file ++ utf8 "/" ++ utf8 "%Y-%m-%d.log", ?_⟩,
    fun h => ⟨file ++ utf8 "/" ++ utf8 "%Y-%m-%d.log", ?_⟩, rfl,
    fun c hc => (Option_ok hc).2.2.2.2.1⟩
  · simp [Logger.New, h]
  · simp [Logger.New, h]

/-- Witness of C9: with a max age of 24 hours and a max count of 5 the writer is
opened with count 0 and the sink's options still read 5. -/
theorem age_wins_over_count_witness :
    ∃ v, newOptionLogger emptyEnv { fileOption "logs" with MaxAge := 24 * Hour, MaxCount := 5 } =
        .ok (some v) ∧
      (∃ p, v.Logger.Out = Writer.RotateLogs p (24 * Hour) (24 * Hour) 0) ∧
      v.Op.MaxCount = 5 :=
  ⟨_, rfl,
    (age_wins_over_count emptyEnv { fileOption "logs" with MaxAge := 24 * Hour, MaxCount := 5 } _
      rfl rfl).1 (by decide),
    rfl⟩

/-- Counterexample to C9 as stated: for `maxAge = 24, maxCount = 5` the options
constructed from the configuration, and those kept by the sink, read back a
count of 5, not 0, while the writer is opened with 0. -/
theorem stored_count_counterexample :
    (LogConfig.Option ageCountConfig).map (fun op => (op.MaxAge, op.MaxCount)) =
      .ok (24 * Hour, 5) ∧
    (NewLogEntry emptyEnv [ageCountConfig]).map
        (fun l => l.logs.map (fun v => (v.Logger.Out, v.Op.MaxAge, v.Op.MaxCount))) =
      .ok [(Writer.RotateLogs (utf8 "logs/%Y-%m-%d.log") (24 * Hour) (24 * Hour) 0,
        24 * Hour, 5)] := by
  decide

/-- C10. The directory resolution of a file sink, evaluated: whenever the path
ends with the separator, the cut `file[:le-2]` removes the separator together
with the byte before it, whatever that byte is, so `logs/` resolves to `log`
and the writer is opened on `log/%Y-%m-%d.log`; for a path of two characters
and a separator the cut falls inside the second character; and for the path
`/` the cut is `file[:-1]`, a run-time panic. -/
theorem dir_trim_cuts_two_bytes :
    (∀ (d : GoString) (x : UInt8), trimDir (d ++ [x, slash]) = .ok d) ∧
    resolveDir (fileOption "logs/") = .ok (utf8 "log") ∧
    outTypeToWriter emptyEnv (fileOption "logs/") =
      .ok (some (Writer.RotateLogs (utf8 "log/%Y-%m-%d.log") (24 * Hour) 0 0)) ∧
    resolveDir (fileOption "日志/") = .ok [0xe6, 0x97, 0xa5, 0xe5, 0xbf] ∧
    resolveDir (fileOption "/") =
      .error "runtime error: slice bounds out of range [:-1]" ∧
    outTypeToWriter emptyEnv (fileOption "/") =
      .error "runtime error: slice bounds out of range [:-1]" ∧
    resolveDir (fileOption "var/log") = .ok (utf8 "var/log") := by
  refine ⟨trimDir_cut, ?_, ?_, ?_, ?_, ?_, ?_⟩ <;> decide

end Emlogrus
